import Mathlib

/-!
Verification of the net-hardening repository: a shallow embedding of the
configuration-compliance rule engine ("AdvancedBlockChecker") described by the
repository's documentation, and of the browser helpers in
`src/app/static/js/app.js` (CSRF cookie access, the patched `window.fetch`,
and the sidebar toggle), together with proofs of the specified properties.

The rule engine's implementation is not among the repository's source files;
only its rule-schema documentation (`docs/examples/advanced_block_rules.md`)
is.  Every definition in the engine section is therefore modelled from the
specification text, as indicated by its doc comment.
-/

namespace NetHardening

/-! ## Rule engine: data model (modelled from the spec) -/

/-- Modelled from the spec: the Pattern Matcher leaf component (spec section 2).
The engine's implementation is missing from the sources, so a pattern is
embedded as either a syntactically valid regular expression, wrapped as its
source text together with the line-matching function it denotes, or a
malformed one (invalid regex syntax, spec section 7). -/
inductive Pattern where
  | malformed (src : String)
  | valid (src : String) (matcher : String → Bool)

/-- Modelled from the spec: the source text of a pattern. -/
def Pattern.src : Pattern → String
  | .malformed s => s
  | .valid s _ => s

/-- Modelled from the spec: whether a pattern has invalid regex syntax. -/
def Pattern.isMalformed : Pattern → Bool
  | .malformed _ => true
  | .valid _ _ => false

/-- Modelled from the spec: matching a pattern against one line.  A malformed
pattern matches nothing (its use is reported as an error before matching). -/
def Pattern.matches : Pattern → String → Bool
  | .malformed _, _ => false
  | .valid _ f, s => f s

/-- Modelled from the spec: one line of a ConfigDocument, a (line number, raw
text) pair (spec section 3). -/
structure Line where
  num : Nat
  text : String
deriving DecidableEq

/-- Modelled from the spec: a line's indentation level, the number of leading
space characters (spec section 4.1). -/
def indentOf (s : String) : Nat :=
  (s.data.takeWhile (fun c => c == ' ')).length

/-- Modelled from the spec: a blank line (only whitespace), which never
terminates a block (spec section 4.1). -/
def isBlank (s : String) : Bool :=
  s.data.all (fun c => c == ' ' || c == '\t')

/-- Modelled from the spec: a `BlockDefinition` - required `start` pattern,
optional `end` pattern, optional `filter.exclude` pattern (spec section 3).
The spec leaves inclusive/exclusive `end` matching open and recommends the
default, exclusive, which is what is modelled. -/
structure BlockDefinition where
  start : Pattern
  endPat : Option Pattern
  exclude : Option Pattern

/-- Modelled from the spec: a line opens a new block when it matches
`definition.start` and does not match `definition.filter.exclude` (spec
section 4.1). -/
def opens (d : BlockDefinition) (l : Line) : Bool :=
  d.start.matches l.text &&
    !(match d.exclude with
      | some p => p.matches l.text
      | none => false)

/-- Modelled from the spec: whether a line closes the currently open block,
whose start line had indentation `startIndent`.  With an `end` pattern the
block closes at the first line matching it; otherwise at the first
non-blank line whose indentation is less than or equal to the start line's
(spec section 4.1). -/
def closesAt (d : BlockDefinition) (startIndent : Nat) (l : Line) : Bool :=
  match d.endPat with
  | some p => p.matches l.text
  | none => !(isBlank l.text) && indentOf l.text ≤ startIndent

/-- Modelled from the spec: a `Block` instance - its start line (whose capture
groups are its identity) and its ordered body lines (spec section 3). -/
structure Block where
  start : Line
  body : List Line
deriving DecidableEq

/-- Modelled from the spec: a Block's identity, derived from its start line
(spec section 3; captures are modelled by the start line's text). -/
def Block.identity (b : Block) : String := b.start.text

/-- Modelled from the spec: the first line number of the block's range. -/
def Block.startNum (b : Block) : Nat := b.start.num

/-- Modelled from the spec: the last line number of the contiguous range the
block spans (the start line when the body is empty). -/
def Block.endNum (b : Block) : Nat :=
  b.body.foldl (fun m l => max m l.num) b.start.num

/-- Modelled from the spec: the Block Extractor's top-to-bottom scan (spec
section 4.1), written with explicit fuel so that it is structurally
recursive; `extract` supplies fuel equal to the number of lines, which the
scan (consuming at least one line per step) never exhausts.  A line opens a
block when `opens` holds; the body then extends to, and excludes, the first
subsequent closing line, and the scan resumes at that closing line (which
may itself open a sibling block).  Lines inside a body are not rescanned
for further top-level starts. -/
def extractAux (d : BlockDefinition) : Nat → List Line → List Block
  | _, [] => []
  | 0, _ :: _ => []
  | fuel + 1, l :: rest =>
    if opens d l then
      { start := l,
        body := rest.takeWhile (fun x => !(closesAt d (indentOf l.text) x)) }
        :: extractAux d fuel (rest.dropWhile (fun x => !(closesAt d (indentOf l.text) x)))
    else
      extractAux d fuel rest

/-- Modelled from the spec: `extract(lines, definition) -> list<Block>` (spec
section 4.1). -/
def extract (d : BlockDefinition) (lines : List Line) : List Block :=
  extractAux d lines.length lines

/-! ## Rule engine: checks and findings (modelled from the spec) -/

/-- Modelled from the spec: a Finding's status (spec section 3): pass, fail,
skipped (condition not met) or error (malformed rule). -/
inductive Status where
  | pass
  | fail
  | skipped
  | error
deriving DecidableEq

/-- Modelled from the spec: the mode of a `SinglePattern` check (spec
sections 3 and 6; unknown modes are rejected at load time, section 9). -/
inductive SingleMode where
  | must_exist
  | must_not_exist
deriving DecidableEq

/-- Modelled from the spec: the mode of a `Group` check (spec sections 3
and 6). -/
inductive GroupMode where
  | all_must_exist
  | exactly_one
deriving DecidableEq

/-- Modelled from the spec: a `CheckSpec`, a tagged variant -
`SinglePattern`, `Group` or `NestedBlock` (spec section 3).  A
`condition.if_match` pattern, when present, gates whether the check applies
to a given block; the nested variant carries a nested block definition and
its own check list. -/
inductive CheckSpec where
  | single (pattern : Pattern) (mode : SingleMode) (comment : Option String)
      (condition : Option Pattern)
  | group (patterns : List Pattern) (mode : GroupMode) (name : Option String)
      (condition : Option Pattern)
  | nested (definition : BlockDefinition) (checks : List CheckSpec)

/-- Modelled from the spec: a Finding - the identities of the blocks it names,
the rule name/comment, its status, a message, and supporting matched text
(spec section 3). -/
structure Finding where
  blocks : List String
  rule : String
  status : Status
  message : String
  support : List String
deriving DecidableEq

/-- Modelled from the spec: build a Finding naming one block. -/
def mkFinding (b : Block) (rule : String) (st : Status) (msg : String)
    (support : List String) : Finding :=
  { blocks := [b.identity], rule := rule, status := st, message := msg,
    support := support }

/-- Modelled from the spec: the reported rule name of a `SinglePattern`
check - its comment when given, else the pattern's source text. -/
def singleRuleName (p : Pattern) (comment : Option String) : String :=
  comment.getD p.src

/-- Modelled from the spec: the reported rule name of a `Group` check. -/
def groupRuleName (name : Option String) : String :=
  name.getD "group"

/-- Modelled from the spec: whether a pattern matches at least one body line
of the block. -/
def bodyMatchesP (b : Block) (p : Pattern) : Bool :=
  b.body.any (fun l => p.matches l.text)

/-- Modelled from the spec: evaluation of a `SinglePattern` check's main
logic (spec section 4.2): `must_exist` passes iff at least one body line
matches, `must_not_exist` passes iff no body line matches; a malformed
pattern yields one error-status Finding (spec section 7). -/
def evalSingle (b : Block) (p : Pattern) (m : SingleMode)
    (comment : Option String) : List Finding :=
  match p with
  | .malformed _ =>
    [mkFinding b (singleRuleName p comment) Status.error "invalid regex" []]
  | .valid _ f =>
    match m with
    | .must_exist =>
      if (b.body.filter (fun l => f l.text)).isEmpty then
        [mkFinding b (singleRuleName p comment) Status.fail "pattern not found" []]
      else
        [mkFinding b (singleRuleName p comment) Status.pass "pattern found"
          ((b.body.filter (fun l => f l.text)).map (fun l => l.text))]
    | .must_not_exist =>
      if (b.body.filter (fun l => f l.text)).isEmpty then
        [mkFinding b (singleRuleName p comment) Status.pass "pattern absent" []]
      else
        [mkFinding b (singleRuleName p comment) Status.fail "forbidden pattern present"
          ((b.body.filter (fun l => f l.text)).map (fun l => l.text))]

/-- Modelled from the spec: evaluation of a `Group` check's main logic (spec
section 4.2): `all_must_exist` passes iff every pattern matches at least one
line; `exactly_one` passes iff exactly one pattern has a matching line,
failing with "none matched" or "multiple matched" otherwise; any malformed
member pattern yields one error-status Finding (spec section 7). -/
def evalGroup (b : Block) (ps : List Pattern) (m : GroupMode)
    (name : Option String) : List Finding :=
  if ps.any Pattern.isMalformed then
    [mkFinding b (groupRuleName name) Status.error "invalid regex" []]
  else
    match m with
    | .all_must_exist =>
      if (ps.filter (fun p => !(bodyMatchesP b p))).isEmpty then
        [mkFinding b (groupRuleName name) Status.pass "all patterns present" []]
      else
        [mkFinding b (groupRuleName name) Status.fail "patterns missing"
          ((ps.filter (fun p => !(bodyMatchesP b p))).map Pattern.src)]
    | .exactly_one =>
      if (ps.filter (fun p => bodyMatchesP b p)).length == 1 then
        [mkFinding b (groupRuleName name) Status.pass "exactly one alternative"
          ((ps.filter (fun p => bodyMatchesP b p)).map Pattern.src)]
      else if (ps.filter (fun p => bodyMatchesP b p)).isEmpty then
        [mkFinding b (groupRuleName name) Status.fail "none matched" []]
      else
        [mkFinding b (groupRuleName name) Status.fail "multiple matched"
          ((ps.filter (fun p => bodyMatchesP b p)).map Pattern.src)]

/-- Modelled from the spec: the `condition.if_match` gate, applied first
(spec section 4.2): when the condition pattern is present and no body line
matches it, the check emits one skipped-status Finding and its main logic is
not evaluated; a malformed condition pattern is a rule-definition error
(spec section 7). -/
def evalGate (b : Block) (rule : String) (condition : Option Pattern)
    (main : List Finding) : List Finding :=
  match condition with
  | none => main
  | some (.malformed _) => [mkFinding b rule Status.error "invalid regex" []]
  | some (.valid _ f) =>
    if b.body.any (fun l => f l.text) then main
    else [mkFinding b rule Status.skipped "condition not met" []]

/-- Modelled from the spec: whether a nested block definition contains a
malformed pattern (spec section 7). -/
def defMalformed (d : BlockDefinition) : Bool :=
  d.start.isMalformed
    || (match d.endPat with
        | some p => p.isMalformed
        | none => false)
    || (match d.exclude with
        | some p => p.isMalformed
        | none => false)

/-- Modelled from the spec: evaluation of one check against one block (spec
section 4.2).  The Nat argument is fuel bounding nested-block recursion
depth; rule documents are finite, so any fuel at least the nesting depth
gives the spec's semantics, and non-nested checks ignore the fuel.  A
`NestedBlock` check extracts child blocks from the current block's body and
runs its check list on each child. -/
def evalCheck : Nat → Block → CheckSpec → List Finding
  | _, b, .single p m comment condition =>
    evalGate b (singleRuleName p comment) condition (evalSingle b p m comment)
  | _, b, .group ps m name condition =>
    evalGate b (groupRuleName name) condition (evalGroup b ps m name)
  | fuel, b, .nested d cs =>
    if defMalformed d then
      [mkFinding b "nested_block" Status.error "invalid regex" []]
    else
      match fuel with
      | 0 => []
      | fuel + 1 =>
        ((extract d b.body).map
          (fun child => (cs.map (fun c => evalCheck fuel child c)).flatten)).flatten

/-- Modelled from the spec: `evaluate(block, checks) -> list<Finding>`, run
once per block, each check producing its findings independently (spec
section 4.2). -/
def evaluate (fuel : Nat) (b : Block) (cs : List CheckSpec) : List Finding :=
  (cs.map (evalCheck fuel b)).flatten

/-- Modelled from the spec: evaluation over sibling blocks - findings are
produced per block independently and concatenated in block order (spec
sections 4.2 and 5). -/
def evalBlocks (fuel : Nat) (bs : List Block) (cs : List CheckSpec) : List Finding :=
  (bs.map (fun b => evaluate fuel b cs)).flatten

/-- Modelled from the spec: whether the evaluation of one check on a block
produces a pass-status Finding. -/
def checkPasses (fuel : Nat) (b : Block) (c : CheckSpec) : Bool :=
  (evalCheck fuel b c).any (fun f => decide (f.status = Status.pass))

/-- Modelled from the spec: whether the evaluation of one check on a block
produces a fail-status Finding. -/
def checkFails (fuel : Nat) (b : Block) (c : CheckSpec) : Bool :=
  (evalCheck fuel b c).any (fun f => decide (f.status = Status.fail))

/-! ## Rule engine: cross-block validation (modelled from the spec) -/

/-- Modelled from the spec: for one cross-block pattern (a regex with exactly
one capture group, embedded as a function returning the captured value on a
match), the value a sibling block contributes: the capture from the first
body line matching the pattern (spec section 4.3). -/
def extractValue (cp : String → Option String) (b : Block) : Option String :=
  b.body.findSome? (fun l => cp l.text)

/-- Modelled from the spec: how many of the given sibling blocks contribute
the value `v` for the cross-block pattern (spec section 4.3). -/
def countBlocksWith (cp : String → Option String) (v : String)
    (bs : List Block) : Nat :=
  (bs.filter (fun b => decide (extractValue cp b = some v))).length

/-- Modelled from the spec: the individual "value not found" Finding for a
block with no line matching the cross-block pattern (spec section 4.3). -/
def mkNotFound (b : Block) : Finding :=
  { blocks := [b.identity], rule := "unique", status := Status.fail,
    message := "value not found", support := [] }

/-- Modelled from the spec: the violation Finding for a duplicated value,
naming all contributing blocks' identities (spec section 4.3). -/
def mkDuplicate (cp : String → Option String) (bs : List Block)
    (v : String) : Finding :=
  { blocks := (bs.filter (fun b => decide (extractValue cp b = some v))).map Block.identity,
    rule := "unique", status := Status.fail, message := "duplicate value",
    support := [v] }

/-- Modelled from the spec: the cross-block `unique` rule over sibling blocks
(spec section 4.3): blocks with no matching line are reported individually
as "value not found" and excluded from the comparison; among blocks that do
have a value, any value held by more than one block is a violation naming
all contributing blocks' identities. -/
def validateUnique (cp : String → Option String) (bs : List Block) : List Finding :=
  (bs.filter (fun b => (extractValue cp b).isNone)).map mkNotFound
    ++ (((bs.filterMap (extractValue cp)).dedup.filter
          (fun v => decide (2 ≤ countBlocksWith cp v bs))).map (mkDuplicate cp bs))

/-- Modelled from the spec: the cross-block `all_same` rule (spec section
4.3): pass iff every contributing block's extracted value is identical; on
mismatch, report the distinct values as support. -/
def validateAllSame (cp : String → Option String) (bs : List Block) : List Finding :=
  if (bs.filterMap (extractValue cp)).dedup.length ≤ 1 then
    [{ blocks := (bs.filter (fun b => (extractValue cp b).isSome)).map Block.identity,
       rule := "all_same", status := Status.pass, message := "values consistent",
       support := (bs.filterMap (extractValue cp)).dedup }]
  else
    [{ blocks := (bs.filter (fun b => (extractValue cp b).isSome)).map Block.identity,
       rule := "all_same", status := Status.fail, message := "values differ",
       support := (bs.filterMap (extractValue cp)).dedup }]

/-! ## Browser helpers from `src/app/static/js/app.js` -/

/-- The whitespace characters matched by the regex class `\s` used in
`getCsrfToken`'s cookie regex (app.js line 42). -/
def jsSpace (c : Char) : Bool :=
  c == ' ' || c == '\t' || c == '\n' || c == '\r' || c == '\x0b' || c == '\x0c'

/-- The literal `csrf_token=` searched for by the cookie regex
(app.js line 42). -/
def csrfKey : List Char := "csrf_token=".data

/-- If the characters start with `csrf_token=`, the remainder after it. -/
def afterKey (cs : List Char) : Option (List Char) :=
  if csrfKey.isPrefixOf cs then some (cs.drop csrfKey.length) else none

/-- Left-to-right scan for the `;\s*csrf_token=` alternative of the cookie
regex `(?:^|;\s*)csrf_token=([^;]*)` (app.js line 42): at each position, a
semicolon followed by any run of whitespace and the key starts a match. -/
def scanCookie : List Char → Option (List Char)
  | [] => none
  | c :: rest =>
    if c == ';' then
      match afterKey (rest.dropWhile jsSpace) with
      | some v => some v
      | none => scanCookie rest
    else
      scanCookie rest

/-- The leftmost match of the cookie regex (app.js line 42): the `^`
alternative at position 0 first, then the `;\s*` alternative at each later
position; returns the characters following `csrf_token=`. -/
def cookieMatch (cookie : String) : Option (List Char) :=
  match afterKey cookie.data with
  | some v => some v
  | none => scanCookie cookie.data

/-- The capture group `([^;]*)` of the cookie regex: the raw (still encoded)
value of the `csrf_token` cookie entry, when the regex matches
(app.js lines 42-43). -/
def rawCookieValue (cookie : String) : Option String :=
  (cookieMatch cookie).map (fun v => (v.takeWhile (fun c => !(c == ';'))).asString)

/-- The numeric value of a hexadecimal digit, if it is one. -/
def hexVal (c : Char) : Option Nat :=
  if 48 ≤ c.toNat && c.toNat ≤ 57 then some (c.toNat - 48)
  else if 65 ≤ c.toNat && c.toNat ≤ 70 then some (c.toNat - 55)
  else if 97 ≤ c.toNat && c.toNat ≤ 102 then some (c.toNat - 87)
  else none

/-- Percent-escape decoding as performed by the ECMAScript builtin
`decodeURIComponent` called on app.js line 43: each `%` must be followed by
two hexadecimal digits, otherwise the builtin throws `URIError`, modelled
as `none`.  Decoded bytes are embedded as code points; multi-byte UTF-8
sequence validation (a further source of `URIError`) is not modelled. -/
def percentDecode : List Char → Option (List Char)
  | [] => some []
  | '%' :: rest =>
    match rest with
    | c1 :: c2 :: rest2 =>
      match hexVal c1, hexVal c2 with
      | some h1, some h2 =>
        match percentDecode rest2 with
        | some ds => some (Char.ofNat (16 * h1 + h2) :: ds)
        | none => none
      | _, _ => none
    | _ => none
  | c :: rest =>
    match percentDecode rest with
    | some ds => some (c :: ds)
    | none => none

/-- The ECMAScript `decodeURIComponent` builtin used on app.js line 43;
`none` models a thrown `URIError`. -/
def decodeURIComponentJS (s : String) : Option String :=
  (percentDecode s.data).map List.asString

/-- `getCsrfToken` (app.js lines 41-44): match the cookie string against
`/(?:^|;\s*)csrf_token=([^;]*)/`; on a match return
`decodeURIComponent(match[1])`, else the empty string.  `none` models a
thrown `URIError` escaping the function. -/
def getCsrfToken (cookie : String) : Option String :=
  match rawCookieValue cookie with
  | some v => decodeURIComponentJS v
  | none => some ""

/-- The `url` argument of the patched `window.fetch` (app.js line 48): a
JavaScript string, or any non-string value such as a `Request` object. -/
inductive FetchUrl where
  | str (s : String)
  | obj
deriving DecidableEq

/-- The `options` argument of the patched `window.fetch` (app.js lines
48-58): its `method` property (absent or a string) and its `headers`
object, modelled as an ordered key-value list. -/
structure FetchOptions where
  method : Option String
  headers : List (String × String)
deriving DecidableEq

/-- Assignment `options.headers[k] = v` on a JavaScript object (app.js line
57): overwrite the existing entry for the key, else append a new one. -/
def setHeader (hs : List (String × String)) (k v : String) : List (String × String) :=
  if hs.any (fun p => p.1 == k) then
    hs.map (fun p => if p.1 == k then (k, v) else p)
  else
    hs ++ [(k, v)]

/-- Lookup of a key in a headers object. -/
def getHeader (hs : List (String × String)) (k : String) : Option String :=
  (hs.find? (fun p => p.1 == k)).map (fun p => p.2)

/-- The JavaScript truthiness test `options.method &&` on app.js line 53: an
absent method and the empty string are falsy. -/
def methodTruthy : Option String → Bool
  | none => false
  | some m => !(m == "")

/-- The guard of app.js lines 50-55: `typeof url === 'string' &&
url.startsWith('/api/') && options.method && options.method !== 'GET'`. -/
def shouldAttach (url : FetchUrl) (options : FetchOptions) : Bool :=
  match url with
  | .str s =>
    "/api/".data.isPrefixOf s.data && methodTruthy options.method
      && !(options.method == some "GET")
  | .obj => false

/-- The patched `window.fetch` (app.js lines 48-60), modelled by the
arguments it forwards to the original fetch: `options = options || {}`,
then, when the guard holds, `options.headers['X-CSRF-Token']` is set to the
current CSRF token (the value `getCsrfToken` returned, passed in here as
`csrf`). -/
def patchedFetch (csrf : String) (url : FetchUrl) (opts0 : Option FetchOptions) :
    FetchUrl × FetchOptions :=
  let options := opts0.getD { method := none, headers := [] }
  if shouldAttach url options then
    (url, { method := options.method,
            headers := setHeader options.headers "X-CSRF-Token" csrf })
  else
    (url, options)

/-- The state touched by `toggleSidebar` (app.js lines 15-21): the class
list of the `.app-layout` element and the `localStorage` entry
`hcs-sidebar-collapsed`. -/
structure SidebarState where
  classes : List String
  stored : Option String
deriving DecidableEq

/-- `classList.toggle(c)` (app.js line 16): remove the class if present,
else add it. -/
def classListToggle (classes : List String) (c : String) : List String :=
  if classes.contains c then classes.filter (fun x => !(x == c))
  else classes ++ [c]

/-- `classList.contains(c)` (app.js line 19). -/
def classListContains (classes : List String) (c : String) : Bool :=
  classes.contains c

/-- `localStorage.setItem` stringifies its second argument; JavaScript turns
the booleans into the strings `true` and `false` (app.js lines 17-20). -/
def boolToJsString (b : Bool) : String :=
  if b then "true" else "false"

/-- `toggleSidebar` (app.js lines 15-21): toggle the `collapsed` class on
the layout element, then persist `classList.contains('collapsed')` under
`hcs-sidebar-collapsed`. -/
def toggleSidebar (s : SidebarState) : SidebarState :=
  { classes := classListToggle s.classes "collapsed",
    stored := some (boolToJsString
      (classListContains (classListToggle s.classes "collapsed") "collapsed")) }

/-! ## Concrete fixtures used by witnesses -/

/-- A concrete start line. -/
def lnBlk : Line := { num := 1, text := "blk" }

/-- A concrete body line. -/
def lnA : Line := { num := 2, text := " a" }

/-- A concrete body line. -/
def lnB : Line := { num := 3, text := " b" }

/-- A concrete block with two body lines. -/
def blkAB : Block := { start := lnBlk, body := [lnA, lnB] }

/-- A concrete block with one body line. -/
def blkA : Block := { start := lnBlk, body := [lnA] }

/-- A concrete valid pattern matching the line `" a"`. -/
def patA : Pattern := Pattern.valid "a" (fun s => s == " a")

/-- A concrete block definition: blocks start at lines beginning with
`interface`, no end pattern, no exclude filter. -/
def dIface : BlockDefinition :=
  { start := Pattern.valid "iface" (fun s => "interface".data.isPrefixOf s.data),
    endPat := none, exclude := none }

/-- A concrete nested block definition: blocks start at lines whose first
non-space characters begin with `service`. -/
def dSvc : BlockDefinition :=
  { start := Pattern.valid "svc"
      (fun s => "service".data.isPrefixOf (s.data.dropWhile (fun c => c == ' '))),
    endPat := none, exclude := none }

/-- A concrete six-line configuration document with a nested stanza and a
blank line inside the first block. -/
def docLines : List Line :=
  [{ num := 1, text := "interface Gi1" }, { num := 2, text := " service x" },
   { num := 3, text := "" }, { num := 4, text := "  y z" },
   { num := 5, text := "interface Gi2" }, { num := 6, text := " w" }]

/-- The first block extracted from `docLines` by `dIface`. -/
def blkIface1 : Block :=
  { start := { num := 1, text := "interface Gi1" },
    body := [{ num := 2, text := " service x" }, { num := 3, text := "" },
             { num := 4, text := "  y z" }] }

/-- The nested block extracted from `blkIface1`'s body by `dSvc`. -/
def blkSvc : Block :=
  { start := { num := 2, text := " service x" },
    body := [{ num := 3, text := "" }, { num := 4, text := "  y z" }] }

/-- A concrete cross-block capture pattern: the second word of the lines it
recognises. -/
def cpW : String → Option String := fun s =>
  if s == "a 10" then some "10"
  else if s == "b 10" then some "10"
  else if s == "c 11" then some "11"
  else none

/-- A sibling block contributing the value `10` for `cpW`. -/
def blkV1 : Block := { start := { num := 1, text := "B1" }, body := [{ num := 2, text := "a 10" }] }

/-- A second sibling block contributing the value `10` for `cpW`. -/
def blkV2 : Block := { start := { num := 3, text := "B2" }, body := [{ num := 4, text := "b 10" }] }

/-- A sibling block contributing the value `11` for `cpW`. -/
def blkV3 : Block := { start := { num := 5, text := "B3" }, body := [{ num := 6, text := "c 11" }] }

/-- A sibling block with no line matching `cpW`. -/
def blkV4 : Block := { start := { num := 7, text := "B4" }, body := [{ num := 8, text := "x" }] }

/-- The start line of a concrete block whose body ends at a dedent. -/
def lC3 : Line := { num := 1, text := "interface Gi1" }

/-- Concrete body lines, including a blank line, all of which stay inside
the block. -/
def preC3 : List Line :=
  [{ num := 2, text := " a" }, { num := 3, text := "" }, { num := 4, text := " b" }]

/-- The first non-blank line at the start line's indentation: it closes the
block and is excluded from the body. -/
def stopC3 : Line := { num := 5, text := "interface Gi2" }

/-- Concrete lines after the closing line. -/
def postC3 : List Line := [{ num := 6, text := " c" }]

/-- Concrete fetch options with a POST method and no headers. -/
def optsPost : FetchOptions := { method := some "POST", headers := [] }

/-- Concrete fetch options with a present but empty method string. -/
def optsEmptyM : FetchOptions := { method := some "", headers := [] }

/-! ## Helper lemmas -/

theorem any_of_sublist {α : Type} {l1 l2 : List α} {f : α → Bool}
    (h : l1.Sublist l2) (ha : l1.any f = true) : l2.any f = true := by
  rw [List.any_eq_true] at ha ⊢
  obtain ⟨x, hx, hfx⟩ := ha
  exact ⟨x, h.subset hx, hfx⟩

theorem takeWhile_middle {α : Type} (p : α → Bool) (pre post : List α) (stop : α)
    (hpre : ∀ x ∈ pre, p x = true) (hstop : p stop = false) :
    (pre ++ stop :: post).takeWhile p = pre
      ∧ (pre ++ stop :: post).dropWhile p = stop :: post := by
  induction pre with
  | nil => simp [List.takeWhile_cons, List.dropWhile_cons, hstop]
  | cons a t ih =>
    have ha : p a = true := hpre a (by simp)
    have iht := ih (fun x hx => hpre x (by simp [hx]))
    simp [List.takeWhile_cons, List.dropWhile_cons, ha, iht.1, iht.2]

theorem extractAux_fuel_eq (d : BlockDefinition) :
    ∀ (f1 : Nat) (ls : List Line) (f2 : Nat), ls.length ≤ f1 → ls.length ≤ f2 →
      extractAux d f1 ls = extractAux d f2 ls := by
  intro f1
  induction f1 with
  | zero =>
    intro ls f2 h1 _
    have hnil : ls = [] := List.length_eq_zero.mp (Nat.le_zero.mp h1)
    subst hnil
    cases f2 <;> rfl
  | succ f ih =>
    intro ls f2 h1 h2
    cases ls with
    | nil => cases f2 <;> rfl
    | cons l rest =>
      cases f2 with
      | zero => simp at h2
      | succ f2 =>
        have hr1 : rest.length ≤ f := by simp [List.length_cons] at h1; omega
        have hr2 : rest.length ≤ f2 := by simp [List.length_cons] at h2; omega
        have hd : (rest.dropWhile (fun x => !(closesAt d (indentOf l.text) x))).length
            ≤ rest.length := (List.dropWhile_sublist _).length_le
        simp only [extractAux]
        split
        · exact congrArg _ (ih _ f2 (le_trans hd hr1) (le_trans hd hr2))
        · exact ih rest f2 hr1 hr2

theorem extractAux_mem_sublist (d : BlockDefinition) :
    ∀ (fuel : Nat) (ls : List Line) (blk : Block), blk ∈ extractAux d fuel ls →
      (blk.start :: blk.body).Sublist ls := by
  intro fuel
  induction fuel with
  | zero =>
    intro ls blk h
    cases ls with
    | nil => simp [extractAux] at h
    | cons l rest => simp [extractAux] at h
  | succ f ih =>
    intro ls blk h
    cases ls with
    | nil => simp [extractAux] at h
    | cons l rest =>
      simp only [extractAux] at h
      by_cases ho : opens d l
      · rw [if_pos ho] at h
        rcases List.mem_cons.mp h with heq | hmem
        · subst heq
          exact List.Sublist.cons₂ _ (List.takeWhile_sublist _)
        · exact List.Sublist.cons _ ((ih _ blk hmem).trans (List.dropWhile_sublist _))
      · rw [if_neg ho] at h
        exact List.Sublist.cons _ (ih rest blk h)

theorem extract_mem_sublist (d : BlockDefinition) (ls : List Line) (blk : Block)
    (h : blk ∈ extract d ls) : (blk.start :: blk.body).Sublist ls :=
  extractAux_mem_sublist d ls.length ls blk h

theorem le_foldl_max_init :
    ∀ (body : List Line) (a : Nat), a ≤ body.foldl (fun m l => max m l.num) a := by
  intro body
  induction body with
  | nil => intro a; simp
  | cons x t ih => intro a; exact le_trans (Nat.le_max_left _ _) (ih (max a x.num))

theorem mem_le_foldl_max :
    ∀ (body : List Line) (a : Nat) (x : Line), x ∈ body →
      x.num ≤ body.foldl (fun m l => max m l.num) a := by
  intro body
  induction body with
  | nil => intro a x hx; simp at hx
  | cons y t ih =>
    intro a x hx
    rcases List.mem_cons.mp hx with rfl | hxt
    · exact le_trans (Nat.le_max_right a x.num) (le_foldl_max_init t _)
    · exact ih _ x hxt

theorem foldl_max_le :
    ∀ (body : List Line) (a M : Nat), a ≤ M → (∀ x ∈ body, x.num ≤ M) →
      body.foldl (fun m l => max m l.num) a ≤ M := by
  intro body
  induction body with
  | nil => intro a M ha _; simpa using ha
  | cons y t ih =>
    intro a M ha hall
    exact ih _ M (max_le ha (hall y (by simp))) (fun x hx => hall x (by simp [hx]))

theorem countBlocksWith_eq_count (cp : String → Option String) (v : String) :
    ∀ (bs : List Block),
      countBlocksWith cp v bs = (bs.filterMap (extractValue cp)).count v := by
  intro bs
  induction bs with
  | nil => rfl
  | cons b t ih =>
    unfold countBlocksWith at ih ⊢
    cases h : extractValue cp b with
    | none => simp [List.filter_cons, h, List.filterMap_cons, ih]
    | some w =>
      by_cases hw : w = v
      · subst hw
        simp [List.filter_cons, h, List.filterMap_cons, List.count_cons, ih, Nat.add_comm]
      · simp [List.filter_cons, h, List.filterMap_cons, List.count_cons, hw, ih]

theorem filterMap_filter_isSome (cp : String → Option String) :
    ∀ (bs : List Block),
      (bs.filter (fun b => (extractValue cp b).isSome)).filterMap (extractValue cp)
        = bs.filterMap (extractValue cp) := by
  intro bs
  induction bs with
  | nil => rfl
  | cons b t ih =>
    cases h : extractValue cp b <;>
      simp [List.filter_cons, h, List.filterMap_cons, ih]

theorem filter_value_filter_isSome (cp : String → Option String) (v : String)
    (bs : List Block) :
    (bs.filter (fun b => (extractValue cp b).isSome)).filter
        (fun b => decide (extractValue cp b = some v))
      = bs.filter (fun b => decide (extractValue cp b = some v)) := by
  rw [List.filter_filter]
  apply List.filter_congr
  intro x _
  cases h : extractValue cp x <;> simp [h]

theorem countBlocksWith_filter_isSome (cp : String → Option String) (v : String)
    (bs : List Block) :
    countBlocksWith cp v (bs.filter (fun b => (extractValue cp b).isSome))
      = countBlocksWith cp v bs := by
  unfold countBlocksWith
  rw [filter_value_filter_isSome]

theorem filter_singleton_of_nodup {α : Type} (p : α → Bool) :
    ∀ (l : List α) (a : α), l.Nodup → a ∈ l → (∀ x ∈ l, p x = true ↔ x = a) →
      l.filter p = [a] := by
  intro l
  induction l with
  | nil => intro a _ ha _; simp at ha
  | cons y t ih =>
    intro a hnd hmem hp
    rcases List.mem_cons.mp hmem with rfl | hat
    · have hpy : p a = true := (hp a (by simp)).mpr rfl
      have ht : t.filter p = [] := by
        rw [List.filter_eq_nil_iff]
        intro x hx hpx
        have hxa : x = a := (hp x (by simp [hx])).mp hpx
        subst hxa
        exact (List.nodup_cons.mp hnd).1 hx
      simp [List.filter_cons, hpy, ht]
    · have hya : ¬(y = a) := fun h => (List.nodup_cons.mp hnd).1 (h ▸ hat)
      have hpy : ¬(p y = true) := fun h => hya ((hp y (by simp)).mp h)
      rw [List.filter_cons_of_neg hpy]
      exact ih a (List.nodup_cons.mp hnd).2 hat (fun x hx => hp x (by simp [hx]))

theorem validateUnique_dup (cp : String → Option String) (bs : List Block) :
    (validateUnique cp bs).filter (fun f => decide (f.message = "duplicate value"))
      = ((bs.filterMap (extractValue cp)).dedup.filter
          (fun v => decide (2 ≤ countBlocksWith cp v bs))).map (mkDuplicate cp bs) := by
  unfold validateUnique
  rw [List.filter_append]
  have h1 : ((bs.filter (fun b => (extractValue cp b).isNone)).map mkNotFound).filter
      (fun f => decide (f.message = "duplicate value")) = [] := by
    rw [List.filter_eq_nil_iff]
    intro f hf hmsg
    rcases List.mem_map.mp hf with ⟨b, _, rfl⟩
    simp [mkNotFound] at hmsg
  have h2 : (((bs.filterMap (extractValue cp)).dedup.filter
        (fun v => decide (2 ≤ countBlocksWith cp v bs))).map (mkDuplicate cp bs)).filter
      (fun f => decide (f.message = "duplicate value"))
      = ((bs.filterMap (extractValue cp)).dedup.filter
          (fun v => decide (2 ≤ countBlocksWith cp v bs))).map (mkDuplicate cp bs) := by
    rw [List.filter_eq_self]
    intro f hf
    rcases List.mem_map.mp hf with ⟨w, _, rfl⟩
    simp [mkDuplicate]
  rw [h1, h2, List.nil_append]

theorem find_map_replace (k v : String) :
    ∀ (hs : List (String × String)), hs.any (fun p => p.1 == k) = true →
      ((hs.map (fun p => if p.1 == k then (k, v) else p)).find?
        (fun p => p.1 == k)) = some (k, v) := by
  intro hs
  induction hs with
  | nil => intro h; simp at h
  | cons p t ih =>
    intro h
    by_cases hp : p.1 == k
    · rw [List.map_cons, if_pos hp, List.find?_cons_of_pos _ (by simp)]
    · have ht : t.any (fun p => p.1 == k) = true := by
        simp only [List.any_cons, hp, Bool.false_or] at h
        exact h
      simp only [List.map_cons, if_neg hp]
      rw [List.find?_cons_of_neg _ (by simpa using hp)]
      exact ih ht

theorem find_append_missing (k v : String) :
    ∀ (hs : List (String × String)), hs.any (fun p => p.1 == k) = false →
      ((hs ++ [(k, v)]).find? (fun p => p.1 == k)) = some (k, v) := by
  intro hs
  induction hs with
  | nil =>
    intro _
    rw [List.nil_append, List.find?_cons_of_pos _ (by simp)]
  | cons p t ih =>
    intro h
    simp only [List.any_cons, Bool.or_eq_false_iff] at h
    rw [List.cons_append, List.find?_cons_of_neg _ (by simp [h.1])]
    exact ih h.2

theorem getHeader_setHeader (hs : List (String × String)) (k v : String) :
    getHeader (setHeader hs k v) k = some v := by
  unfold getHeader setHeader
  by_cases h : hs.any (fun p => p.1 == k)
  · rw [if_pos h, find_map_replace k v hs h]
    rfl
  · rw [if_neg h, find_append_missing k v hs (by simp only [Bool.not_eq_true] at h; exact h)]
    rfl

theorem contains_filter_not (l : List String) (c : String) :
    (l.filter (fun x => !(x == c))).contains c = false := by
  induction l with
  | nil => rfl
  | cons x t ih =>
    by_cases hx : x == c
    · rw [List.filter_cons_of_neg (by simp [hx])]
      exact ih
    · rw [List.filter_cons_of_pos (by simp [hx])]
      simp only [List.contains_cons, ih, Bool.or_false]
      have hne : ¬(c = x) := fun hh => hx (by simp [hh])
      cases hcx : c == x with
      | false => rfl
      | true => exact absurd (eq_of_beq hcx) hne

theorem contains_append_single (l : List String) (c : String) :
    (l ++ [c]).contains c = true := by
  induction l with
  | nil => simp
  | cons x t ih => rw [List.cons_append, List.contains_cons, ih, Bool.or_true]

theorem evalCheck_single (fuel : Nat) (b : Block) (p : Pattern) (m : SingleMode)
    (comment : Option String) (condition : Option Pattern) :
    evalCheck fuel b (CheckSpec.single p m comment condition)
      = evalGate b (singleRuleName p comment) condition (evalSingle b p m comment) := by
  cases fuel <;> rfl

theorem evalCheck_group (fuel : Nat) (b : Block) (ps : List Pattern) (m : GroupMode)
    (name : Option String) (condition : Option Pattern) :
    evalCheck fuel b (CheckSpec.group ps m name condition)
      = evalGate b (groupRuleName name) condition (evalGroup b ps m name) := by
  cases fuel <;> rfl

theorem evalCheck_nested_succ (fuel : Nat) (b : Block) (d : BlockDefinition)
    (cs : List CheckSpec) :
    evalCheck (fuel + 1) b (CheckSpec.nested d cs)
      = if defMalformed d then
          [mkFinding b "nested_block" Status.error "invalid regex" []]
        else evalBlocks fuel (extract d b.body) cs := rfl

theorem evalGate_none (b : Block) (rule : String) (main : List Finding) :
    evalGate b rule none main = main := rfl

theorem evalGate_malformed (b : Block) (rule : String) (s : String)
    (main : List Finding) :
    evalGate b rule (some (Pattern.malformed s)) main
      = [mkFinding b rule Status.error "invalid regex" []] := rfl

theorem evalGate_valid (b : Block) (rule : String) (s : String)
    (f : String → Bool) (main : List Finding) :
    evalGate b rule (some (Pattern.valid s f)) main
      = if b.body.any (fun l => f l.text) then main
        else [mkFinding b rule Status.skipped "condition not met" []] := rfl

theorem evalGroup_all_mono (b2 b : Block) (ps : List Pattern) (name : Option String)
    (hsub : b2.body.Sublist b.body)
    (h : (evalGroup b2 ps GroupMode.all_must_exist name).any
        (fun f => decide (f.status = Status.pass)) = true) :
    (evalGroup b ps GroupMode.all_must_exist name).any
      (fun f => decide (f.status = Status.pass)) = true := by
  unfold evalGroup at h ⊢
  by_cases hm : ps.any Pattern.isMalformed
  · rw [if_pos hm] at h
    simp [mkFinding] at h
  · rw [if_neg hm] at h ⊢
    by_cases hmiss : (ps.filter (fun p => !(bodyMatchesP b2 p))).isEmpty
    · have hall : ∀ p ∈ ps, bodyMatchesP b p = true := by
        intro p hp
        have hp2 : bodyMatchesP b2 p = true := by
          by_contra hq
          rw [Bool.not_eq_true] at hq
          have hmem : p ∈ ps.filter (fun p => !(bodyMatchesP b2 p)) :=
            List.mem_filter.mpr ⟨hp, by simp [hq]⟩
          rw [List.isEmpty_iff] at hmiss
          rw [hmiss] at hmem
          simp at hmem
        exact any_of_sublist hsub hp2
      have hbe : (ps.filter (fun p => !(bodyMatchesP b p))).isEmpty = true := by
        rw [List.isEmpty_iff, List.filter_eq_nil_iff]
        intro p hp
        simp [hall p hp]
      simp [hbe, mkFinding]
    · rw [Bool.not_eq_true] at hmiss
      simp [hmiss, mkFinding] at h

/-! ## Claims -/

/-- C1: for every Block `b` and every pattern `p`, the `SinglePattern` check
with mode `must_exist` on `p` passes on `b` iff the `SinglePattern` check
with mode `must_not_exist` on `p` fails on `b`, and vice versa - the two
modes are exact complements on the identical block (under the identical
condition gate). -/
theorem singlePattern_modes_complementary (fuel : Nat) (b : Block) (p : Pattern)
    (comment : Option String) (condition : Option Pattern) :
    (checkPasses fuel b (CheckSpec.single p SingleMode.must_exist comment condition)
        = checkFails fuel b (CheckSpec.single p SingleMode.must_not_exist comment condition))
      ∧ (checkPasses fuel b (CheckSpec.single p SingleMode.must_not_exist comment condition)
        = checkFails fuel b (CheckSpec.single p SingleMode.must_exist comment condition)) := by
  unfold checkPasses checkFails
  simp only [evalCheck_single]
  unfold evalGate
  cases condition with
  | none =>
    cases p with
    | malformed s => simp [evalSingle, mkFinding]
    | valid s f =>
      by_cases hh : (b.body.filter (fun l => f l.text)).isEmpty
      · simp [evalSingle, mkFinding, hh]
      · simp [evalSingle, mkFinding, hh]
  | some q =>
    cases q with
    | malformed s => simp [mkFinding]
    | valid s f =>
      by_cases hc : b.body.any (fun l => f l.text)
      · cases p with
        | malformed s2 => simp [hc, evalSingle, mkFinding]
        | valid s2 f2 =>
          by_cases hh : (b.body.filter (fun l => f2 l.text)).isEmpty
          · simp [hc, evalSingle, mkFinding, hh]
          · simp [hc, evalSingle, mkFinding, hh]
      · simp [hc, mkFinding]

/-- C10: after every call to `toggleSidebar`, the persisted
`hcs-sidebar-collapsed` entry equals the string form of whether the layout
element carries the `collapsed` class (and the class was indeed toggled). -/
theorem toggleSidebar_persists_state (s : SidebarState) :
    ((toggleSidebar s).stored
        = some (boolToJsString (classListContains (toggleSidebar s).classes "collapsed")))
      ∧ (classListContains (toggleSidebar s).classes "collapsed"
        = !(classListContains s.classes "collapsed")) := by
  constructor
  · rfl
  · show classListContains (classListToggle s.classes "collapsed") "collapsed" = _
    unfold classListContains classListToggle
    by_cases h : s.classes.contains "collapsed"
    · rw [if_pos h, contains_filter_not, h]
      rfl
    · rw [if_neg h, contains_append_single,
        (by simp only [Bool.not_eq_true] at h; exact h : s.classes.contains "collapsed" = false)]
      rfl

/-- C5: the Group check with mode `all_must_exist` is monotonic in the
block's body: if it passes on the block with one body line removed, it also
passes on the full block - removing a line can flip a pass to a fail but
never a fail to a pass. -/
theorem all_must_exist_monotone (fuel : Nat) (b : Block) (i : Nat)
    (ps : List Pattern) (name : Option String) (condition : Option Pattern)
    (hpass : checkPasses fuel { start := b.start, body := b.body.eraseIdx i }
        (CheckSpec.group ps GroupMode.all_must_exist name condition) = true) :
    checkPasses fuel b (CheckSpec.group ps GroupMode.all_must_exist name condition) = true := by
  have hsub : (b.body.eraseIdx i).Sublist b.body := List.eraseIdx_sublist b.body i
  unfold checkPasses at hpass ⊢
  rw [evalCheck_group] at hpass ⊢
  cases condition with
  | none =>
    rw [evalGate_none] at hpass ⊢
    exact evalGroup_all_mono _ b ps name hsub hpass
  | some q =>
    cases q with
    | malformed s =>
      rw [evalGate_malformed] at hpass
      simp [mkFinding] at hpass
    | valid s f =>
      rw [evalGate_valid] at hpass ⊢
      by_cases hc : ({ start := b.start, body := b.body.eraseIdx i } : Block).body.any
          (fun l => f l.text) = true
      · have hcb : b.body.any (fun l => f l.text) = true := any_of_sublist hsub hc
        rw [if_pos hc] at hpass
        rw [if_pos hcb]
        exact evalGroup_all_mono _ b ps name hsub hpass
      · rw [if_neg hc] at hpass
        simp [mkFinding] at hpass

/-- Witness for C5 at a concrete block: the group check passes with line 3
removed, and by monotonicity passes on the full block. -/
theorem all_must_exist_monotone_witness :
    (checkPasses 0 { start := blkAB.start, body := blkAB.body.eraseIdx 1 }
        (CheckSpec.group [patA] GroupMode.all_must_exist none none) = true)
      ∧ checkPasses 0 blkAB
          (CheckSpec.group [patA] GroupMode.all_must_exist none none) = true :=
  ⟨by decide, all_must_exist_monotone 0 blkAB 1 [patA] none none (by decide)⟩

/-- C6: for every check carrying a `condition.if_match` pattern, if no body
line of the block matches the condition then evaluation emits exactly one
skipped-status Finding for that check and the check's main logic is not
evaluated (the result is the skip Finding whatever the main pattern or mode
is), and a skipped Finding is never a violation. -/
theorem condition_not_met_skips (fuel : Nat) (b : Block) (src : String)
    (f : String → Bool) (hnone : ∀ l ∈ b.body, f l.text = false) :
    (∀ (p : Pattern) (m : SingleMode) (comment : Option String),
        evalCheck fuel b (CheckSpec.single p m comment (some (Pattern.valid src f)))
          = [mkFinding b (singleRuleName p comment) Status.skipped "condition not met" []])
      ∧ (∀ (ps : List Pattern) (m : GroupMode) (name : Option String),
        evalCheck fuel b (CheckSpec.group ps m name (some (Pattern.valid src f)))
          = [mkFinding b (groupRuleName name) Status.skipped "condition not met" []])
      ∧ (∀ (p : Pattern) (m : SingleMode) (comment : Option String) (fnd : Finding),
        fnd ∈ evalCheck fuel b (CheckSpec.single p m comment (some (Pattern.valid src f))) →
          fnd.status = Status.skipped ∧ fnd.status ≠ Status.fail) := by
  have hany : b.body.any (fun l => f l.text) = false := by
    rw [List.any_eq_false]
    intro l hl
    simp [hnone l hl]
  refine ⟨?_, ?_, ?_⟩
  · intro p m comment
    rw [evalCheck_single, evalGate_valid, hany, if_neg Bool.false_ne_true]
  · intro ps m name
    rw [evalCheck_group, evalGate_valid, hany, if_neg Bool.false_ne_true]
  · intro p m comment fnd hf
    rw [evalCheck_single, evalGate_valid, hany, if_neg Bool.false_ne_true] at hf
    rw [List.mem_singleton] at hf
    subst hf
    exact ⟨rfl, by simp [mkFinding]⟩

/-- Witness for C6 at a concrete block whose single body line does not match
the condition pattern: the check result is one skipped Finding. -/
theorem condition_not_met_skips_witness :
    (∀ l ∈ blkA.body, (fun s => s == "zzz") l.text = false)
      ∧ evalCheck 0 blkA
          (CheckSpec.single patA SingleMode.must_exist none
            (some (Pattern.valid "c" (fun s => s == "zzz"))))
        = [mkFinding blkA (singleRuleName patA none) Status.skipped "condition not met" []] :=
  ⟨by decide,
    (condition_not_met_skips 0 blkA "c" (fun s => s == "zzz") (by decide)).1
      patA SingleMode.must_exist none⟩

/-- C7: a malformed pattern in a check yields exactly one error-status
Finding scoped to that single check (for a `SinglePattern` check, and for a
`Group` check with a malformed member), and evaluation is compositional:
sibling checks and sibling blocks contribute their findings independently,
so no check's failure aborts the rest of the run, at any nesting level. -/
theorem malformed_pattern_scoped_error (fuel : Nat) (b : Block) (s : String)
    (m : SingleMode) (comment : Option String) (cs1 cs2 : List CheckSpec)
    (ps1 ps2 : List Pattern) (gm : GroupMode) (name : Option String)
    (bs1 bs2 : List Block) (cs : List CheckSpec) :
    (evalCheck fuel b (CheckSpec.single (Pattern.malformed s) m comment none)
        = [mkFinding b (singleRuleName (Pattern.malformed s) comment) Status.error
            "invalid regex" []])
      ∧ (evalCheck fuel b (CheckSpec.group (ps1 ++ Pattern.malformed s :: ps2) gm name none)
        = [mkFinding b (groupRuleName name) Status.error "invalid regex" []])
      ∧ (evaluate fuel b (cs1 ++ CheckSpec.single (Pattern.malformed s) m comment none :: cs2)
        = evaluate fuel b cs1
            ++ [mkFinding b (singleRuleName (Pattern.malformed s) comment) Status.error
                "invalid regex" []]
            ++ evaluate fuel b cs2)
      ∧ (evalBlocks fuel (bs1 ++ bs2) cs
        = evalBlocks fuel bs1 cs ++ evalBlocks fuel bs2 cs) := by
  have h1 : evalCheck fuel b (CheckSpec.single (Pattern.malformed s) m comment none)
      = [mkFinding b (singleRuleName (Pattern.malformed s) comment) Status.error
          "invalid regex" []] := by
    rw [evalCheck_single]
    cases m <;> rfl
  refine ⟨h1, ?_, ?_, ?_⟩
  · rw [evalCheck_group]
    unfold evalGate evalGroup
    have hm : (ps1 ++ Pattern.malformed s :: ps2).any Pattern.isMalformed = true := by
      simp [List.any_append, Pattern.isMalformed]
    rw [hm]
    rfl
  · unfold evaluate
    rw [List.map_append, List.map_cons, List.flatten_append, List.flatten_cons, h1,
      List.append_assoc]
  · unfold evalBlocks
    rw [List.map_append, List.flatten_append]

/-- C3: with no `end` pattern, an opened block's body extends to, and
excludes, the first subsequent non-blank line whose indentation is less
than or equal to the start line's; blank lines (and deeper-indented lines)
never terminate the block, and the scan resumes at the closing line. -/
theorem extract_default_delimiter (d : BlockDefinition) (l stop : Line)
    (pre post : List Line)
    (hend : d.endPat = none) (hopen : opens d l = true)
    (hpre : ∀ x ∈ pre, isBlank x.text = true ∨ indentOf l.text < indentOf x.text)
    (hstop1 : isBlank stop.text = false) (hstop2 : indentOf stop.text ≤ indentOf l.text) :
    extract d (l :: (pre ++ stop :: post))
      = { start := l, body := pre } :: extract d (stop :: post) := by
  have hP : ∀ x ∈ pre, (!(closesAt d (indentOf l.text) x)) = true := by
    intro x hx
    rcases hpre x hx with hb | hi
    · simp [closesAt, hend, hb]
    · simp [closesAt, hend]
      omega
  have hS : (!(closesAt d (indentOf l.text) stop)) = false := by
    simp [closesAt, hend, hstop1, hstop2]
  obtain ⟨htake, hdrop⟩ :=
    takeWhile_middle (fun x => !(closesAt d (indentOf l.text) x)) pre post stop hP hS
  show extractAux d ((pre ++ stop :: post).length + 1) (l :: (pre ++ stop :: post)) = _
  simp only [extractAux]
  rw [if_pos hopen, htake, hdrop]
  congr 1
  show _ = extractAux d (stop :: post).length (stop :: post)
  exact extractAux_fuel_eq d _ _ _ (by simp [List.length_append]) (le_refl _)

/-- Witness for C3 at a concrete document: the block opened at line 1 keeps
the blank line 3 and the indented lines 2 and 4 in its body, closes at the
dedented line 5 (excluded), and extraction resumes there. -/
theorem extract_default_delimiter_witness :
    (opens dIface lC3 = true)
      ∧ (∀ x ∈ preC3, isBlank x.text = true ∨ indentOf lC3.text < indentOf x.text)
      ∧ (isBlank stopC3.text = false)
      ∧ (indentOf stopC3.text ≤ indentOf lC3.text)
      ∧ extract dIface (lC3 :: (preC3 ++ stopC3 :: postC3))
        = { start := lC3, body := preC3 } :: extract dIface (stopC3 :: postC3) :=
  ⟨by decide, by decide, by decide, by decide,
    extract_default_delimiter dIface lC3 stopC3 preC3 postC3 rfl (by decide) (by decide)
      (by decide) (by decide)⟩

/-- C4: for every parent block produced by extraction from a document with
strictly increasing line numbers and every child block produced by nested
extraction over the parent's body, the child's line range is a strict
subrange of the parent's: it starts strictly below the parent's start and
ends no later than the parent's end. -/
theorem nested_block_strict_subrange (lines : List Line) (d0 d1 : BlockDefinition)
    (parent child : Block)
    (hpw : List.Pairwise (fun a b => a.num < b.num) lines)
    (hp : parent ∈ extract d0 lines)
    (hc : child ∈ extract d1 parent.body) :
    parent.startNum < child.startNum ∧ child.startNum ≤ child.endNum
      ∧ child.endNum ≤ parent.endNum := by
  have hps : (parent.start :: parent.body).Sublist lines :=
    extract_mem_sublist d0 lines parent hp
  have hppw : List.Pairwise (fun a b => a.num < b.num) (parent.start :: parent.body) :=
    List.Pairwise.sublist hps hpw
  have hhead : ∀ x ∈ parent.body, parent.start.num < x.num :=
    (List.pairwise_cons.mp hppw).1
  have hcs : (child.start :: child.body).Sublist parent.body :=
    extract_mem_sublist d1 parent.body child hc
  have hcsub : ∀ x ∈ child.start :: child.body, x ∈ parent.body :=
    fun x hx => hcs.subset hx
  have hM : ∀ x ∈ parent.body, x.num ≤ parent.endNum :=
    fun x hx => mem_le_foldl_max parent.body parent.start.num x hx
  refine ⟨hhead child.start (hcsub child.start (by simp)), ?_, ?_⟩
  · exact le_foldl_max_init child.body child.start.num
  · exact foldl_max_le child.body child.start.num parent.endNum
      (hM child.start (hcsub child.start (by simp)))
      (fun x hx => hM x (hcsub x (by simp [hx])))

/-- C2: for the cross-block `unique` rule, (i) all-distinct extracted values
yield zero violation Findings; (ii) when exactly two sibling blocks share a
value and every other value is held by at most one block, exactly one
violation Finding is produced, and it names exactly the two sharing blocks'
identities; (iii) blocks with no matching line do not influence the
violations (they are excluded from the comparison set) and (iv) each of
them is instead reported individually with a "value not found" Finding. -/
theorem crossBlock_unique_correct (cp : String → Option String) (bs : List Block)
    (v : String) :
    ((bs.filterMap (extractValue cp)).Nodup →
        (validateUnique cp bs).filter (fun f => decide (f.message = "duplicate value")) = [])
      ∧ (countBlocksWith cp v bs = 2 →
          (∀ w ∈ bs.filterMap (extractValue cp), w ≠ v → countBlocksWith cp w bs ≤ 1) →
          ((validateUnique cp bs).filter (fun f => decide (f.message = "duplicate value"))
              = [mkDuplicate cp bs v]
            ∧ (mkDuplicate cp bs v).blocks
              = (bs.filter (fun b => decide (extractValue cp b = some v))).map Block.identity
            ∧ (mkDuplicate cp bs v).blocks.length = 2))
      ∧ ((validateUnique cp bs).filter (fun f => decide (f.message = "duplicate value"))
          = (validateUnique cp (bs.filter (fun b => (extractValue cp b).isSome))).filter
              (fun f => decide (f.message = "duplicate value")))
      ∧ (∀ b ∈ bs, extractValue cp b = none → mkNotFound b ∈ validateUnique cp bs) := by
  refine ⟨?_, ?_, ?_, ?_⟩
  · intro hnd
    rw [validateUnique_dup, List.map_eq_nil_iff, List.filter_eq_nil_iff]
    intro w _
    simp only [decide_eq_true_eq]
    rw [countBlocksWith_eq_count]
    have := List.nodup_iff_count_le_one.mp hnd w
    omega
  · intro h2 hothers
    have hvmem : v ∈ (bs.filterMap (extractValue cp)).dedup := by
      rw [List.mem_dedup]
      apply List.count_pos_iff.mp
      rw [← countBlocksWith_eq_count]
      omega
    have hfilter : (bs.filterMap (extractValue cp)).dedup.filter
        (fun w => decide (2 ≤ countBlocksWith cp w bs)) = [v] := by
      apply filter_singleton_of_nodup _ _ v (List.nodup_dedup _) hvmem
      intro x hx
      constructor
      · intro hpx
        by_contra hxv
        have hxmem : x ∈ bs.filterMap (extractValue cp) := List.mem_dedup.mp hx
        have hle := hothers x hxmem hxv
        simp only [decide_eq_true_eq] at hpx
        omega
      · intro hxv
        subst hxv
        simp [h2]
    refine ⟨?_, rfl, ?_⟩
    · rw [validateUnique_dup, hfilter]
      rfl
    · show ((bs.filter (fun b => decide (extractValue cp b = some v))).map
          Block.identity).length = 2
      rw [List.length_map]
      exact h2
  · rw [validateUnique_dup, validateUnique_dup, filterMap_filter_isSome]
    have hfeq : (bs.filterMap (extractValue cp)).dedup.filter
          (fun w => decide (2 ≤ countBlocksWith cp w
            (bs.filter (fun b => (extractValue cp b).isSome))))
        = (bs.filterMap (extractValue cp)).dedup.filter
            (fun w => decide (2 ≤ countBlocksWith cp w bs)) := by
      apply List.filter_congr
      intro w _
      rw [countBlocksWith_filter_isSome]
    rw [hfeq]
    apply List.map_congr_left
    intro w _
    unfold mkDuplicate
    rw [filter_value_filter_isSome]
  · intro b hb hnone
    unfold validateUnique
    apply List.mem_append_left
    exact List.mem_map.mpr ⟨b, List.mem_filter.mpr ⟨hb, by simp [hnone]⟩, rfl⟩

/-- Witness for C2 at four concrete sibling blocks: blocks B1 and B2 share
the value 10, B3 holds 11, B4 has no value; exactly one violation Finding
names B1 and B2, the two-block distinct case yields none, and B4 gets its
individual "value not found" Finding. -/
theorem crossBlock_unique_correct_witness :
    (countBlocksWith cpW "10" [blkV1, blkV2, blkV3, blkV4] = 2)
      ∧ (∀ w ∈ ([blkV1, blkV2, blkV3, blkV4].filterMap (extractValue cpW)), w ≠ "10" →
          countBlocksWith cpW w [blkV1, blkV2, blkV3, blkV4] ≤ 1)
      ∧ ((validateUnique cpW [blkV1, blkV2, blkV3, blkV4]).filter
            (fun f => decide (f.message = "duplicate value"))
          = [mkDuplicate cpW [blkV1, blkV2, blkV3, blkV4] "10"])
      ∧ ((mkDuplicate cpW [blkV1, blkV2, blkV3, blkV4] "10").blocks.length = 2)
      ∧ (([blkV1, blkV3].filterMap (extractValue cpW)).Nodup)
      ∧ ((validateUnique cpW [blkV1, blkV3]).filter
            (fun f => decide (f.message = "duplicate value")) = [])
      ∧ (extractValue cpW blkV4 = none)
      ∧ mkNotFound blkV4 ∈ validateUnique cpW [blkV1, blkV2, blkV3, blkV4] :=
  ⟨by decide, by decide,
    ((crossBlock_unique_correct cpW [blkV1, blkV2, blkV3, blkV4] "10").2.1
      (by decide) (by decide)).1,
    ((crossBlock_unique_correct cpW [blkV1, blkV2, blkV3, blkV4] "10").2.1
      (by decide) (by decide)).2.2,
    by decide,
    (crossBlock_unique_correct cpW [blkV1, blkV3] "10").1 (by decide),
    by decide,
    (crossBlock_unique_correct cpW [blkV1, blkV2, blkV3, blkV4] "10").2.2.2
      blkV4 (by decide) (by decide)⟩

/-- Witness for C4 at a concrete document: the `service` stanza nested in
the first `interface` block spans lines 2-4, strictly inside the parent's
lines 1-4. -/
theorem nested_block_strict_subrange_witness :
    List.Pairwise (fun a b => a.num < b.num) docLines
      ∧ blkIface1 ∈ extract dIface docLines
      ∧ blkSvc ∈ extract dSvc blkIface1.body
      ∧ (blkIface1.startNum < blkSvc.startNum ∧ blkSvc.startNum ≤ blkSvc.endNum
          ∧ blkSvc.endNum ≤ blkIface1.endNum) :=
  ⟨by decide, by decide, by decide,
    nested_block_strict_subrange docLines dIface dSvc blkIface1 blkSvc
      (by decide) (by decide) (by decide)⟩

/-- C8 counterexample: with `method: ''` the method is present (not absent)
and differs from `'GET'`, the url is a string starting with `/api/`, yet the
patched fetch forwards the call unchanged and attaches no `X-CSRF-Token`
header, because the empty string is falsy in the `options.method &&` guard. -/
theorem fetch_csrf_claim_counterexample :
    (optsEmptyM.method ≠ none)
      ∧ (optsEmptyM.method ≠ some "GET")
      ∧ ("/api/".data.isPrefixOf "/api/x".data = true)
      ∧ patchedFetch "tok" (FetchUrl.str "/api/x") (some optsEmptyM)
          = (FetchUrl.str "/api/x", optsEmptyM)
      ∧ getHeader (patchedFetch "tok" (FetchUrl.str "/api/x") (some optsEmptyM)).2.headers
          "X-CSRF-Token" = none := by
  refine ⟨?_, ?_, ?_, ?_, ?_⟩ <;> decide

/-- C8 amended: the patched fetch attaches the `X-CSRF-Token` header (with
the CSRF token as its value) exactly when the url is a string starting with
`/api/` and `options.method` is present, non-empty and not `'GET'`; in
every other case (including an absent options object, normalised to an
empty one) it forwards the call without touching the options. -/
theorem fetch_csrf_header_characterization (csrf : String) (url : FetchUrl)
    (opts : FetchOptions) :
    (patchedFetch csrf url none
        = patchedFetch csrf url (some { method := none, headers := [] }))
      ∧ (shouldAttach url opts = true →
          patchedFetch csrf url (some opts)
              = (url, { method := opts.method,
                        headers := setHeader opts.headers "X-CSRF-Token" csrf })
            ∧ getHeader (patchedFetch csrf url (some opts)).2.headers "X-CSRF-Token"
              = some csrf)
      ∧ (shouldAttach url opts = false → patchedFetch csrf url (some opts) = (url, opts))
      ∧ (shouldAttach url opts = true ↔
          ∃ s, url = FetchUrl.str s ∧ "/api/".data.isPrefixOf s.data = true
            ∧ ∃ m, opts.method = some m ∧ m ≠ "" ∧ m ≠ "GET") := by
  refine ⟨rfl, ?_, ?_, ?_⟩
  · intro h
    have he : patchedFetch csrf url (some opts)
        = (url, { method := opts.method,
                  headers := setHeader opts.headers "X-CSRF-Token" csrf }) := by
      unfold patchedFetch
      simp only [Option.getD_some]
      rw [if_pos h]
    refine ⟨he, ?_⟩
    rw [he]
    exact getHeader_setHeader opts.headers "X-CSRF-Token" csrf
  · intro h
    unfold patchedFetch
    simp only [Option.getD_some]
    rw [if_neg (by simp [h])]
  · cases url with
    | obj => simp [shouldAttach]
    | str s =>
      cases hm : opts.method with
      | none => simp [shouldAttach, methodTruthy, hm]
      | some m => simp [shouldAttach, methodTruthy, hm, and_assoc]

/-- Witness for C8 at concrete calls: a POST to `/api/scans` gets the header
with the token value; the falsy empty method leaves the options untouched. -/
theorem fetch_csrf_header_characterization_witness :
    (shouldAttach (FetchUrl.str "/api/scans") optsPost = true)
      ∧ (patchedFetch "tok" (FetchUrl.str "/api/scans") (some optsPost)
            = (FetchUrl.str "/api/scans",
               { method := some "POST", headers := setHeader [] "X-CSRF-Token" "tok" })
          ∧ getHeader (patchedFetch "tok" (FetchUrl.str "/api/scans")
              (some optsPost)).2.headers "X-CSRF-Token" = some "tok")
      ∧ (shouldAttach (FetchUrl.str "/api/scans") optsEmptyM = false)
      ∧ patchedFetch "tok" (FetchUrl.str "/api/scans") (some optsEmptyM)
          = (FetchUrl.str "/api/scans", optsEmptyM) :=
  ⟨by decide,
    (fetch_csrf_header_characterization "tok" (FetchUrl.str "/api/scans") optsPost).2.1
      (by decide),
    by decide,
    (fetch_csrf_header_characterization "tok" (FetchUrl.str "/api/scans") optsEmptyM).2.2.1
      (by decide)⟩

/-- C9 counterexample: on the cookie string `csrf_token=%` the regex matches
with captured value `%`, and `decodeURIComponent('%')` throws `URIError`, so
`getCsrfToken` is not total on every cookie string. -/
theorem getCsrfToken_total_counterexample :
    rawCookieValue "csrf_token=%" = some "%"
      ∧ getCsrfToken "csrf_token=%" = none := by
  refine ⟨?_, ?_⟩ <;> decide

/-- C9 amended: when the cookie regex does not match, `getCsrfToken` returns
the empty string (it never returns undefined); when it matches it returns
`decodeURIComponent` of the captured value, which succeeds - making the
function total - exactly when the value percent-decodes without error. -/
theorem getCsrfToken_behavior (cookie : String) :
    (rawCookieValue cookie = none → getCsrfToken cookie = some "")
      ∧ (∀ v, rawCookieValue cookie = some v →
          getCsrfToken cookie = decodeURIComponentJS v)
      ∧ (∀ v, rawCookieValue cookie = some v → (percentDecode v.data).isSome = true →
          (getCsrfToken cookie).isSome = true) := by
  refine ⟨?_, ?_, ?_⟩
  · intro h
    unfold getCsrfToken
    rw [h]
  · intro v h
    unfold getCsrfToken
    rw [h]
  · intro v h hd
    unfold getCsrfToken
    rw [h]
    cases hpd : percentDecode v.data with
    | none => rw [hpd] at hd; simp at hd
    | some ds =>
      show (Option.map List.asString (percentDecode v.data)).isSome = true
      rw [hpd]
      rfl

/-- Witness for C9 at concrete cookie strings: a cookie list containing a
percent-encoded token decodes to the token, and a cookie list without the
entry yields the empty string. -/
theorem getCsrfToken_behavior_witness :
    (rawCookieValue "a=1; csrf_token=x%20y; b=2" = some "x%20y")
      ∧ getCsrfToken "a=1; csrf_token=x%20y; b=2" = decodeURIComponentJS "x%20y"
      ∧ (rawCookieValue "a=1" = none)
      ∧ getCsrfToken "a=1" = some "" :=
  ⟨by decide,
    (getCsrfToken_behavior "a=1; csrf_token=x%20y; b=2").2.1 "x%20y" (by decide),
    by decide,
    (getCsrfToken_behavior "a=1").1 (by decide)⟩

end NetHardening
